import Mathlib

/-
Verification of the Longbow MCP memory store (src/server of the repository),
a client layer that embeds free-text memories, uploads them to a remote
columnar vector store over Arrow Flight, and reconciles sparse query
responses against full namespace downloads.

The Python source is shallowly embedded: Python dicts become association
lists with replace-in-place insertion (PyDict), JSON-safe metadata values
become PyVal, float values become rationals (each rational stands for the
value of its float32 bit pattern, so the numpy float32 cast is the identity
on them), raised exceptions become the error side of Except, and the remote
server visible through LongbowClient becomes an explicit state value or an
outcome parameter.  Source references are given as file names and line
numbers from the repository.
-/

namespace Longbow

/-- A JSON-safe Python value as it appears in a metadata map.  Floating
point metadata values are not modeled; none of the verified claims uses
them. -/
inductive PyVal where
  | vstr (s : String)
  | vint (n : Int)
  | vbool (b : Bool)
  | vnull
deriving DecidableEq

/-- A Python dict with string keys, modeled as an insertion-ordered
association list.  The operations below keep keys unique the way Python
dicts do (assignment to an existing key replaces the value in place). -/
abbrev PyDict := List (String × PyVal)

/-- Python d.get(k): the value of the first (hence, for a genuine dict,
the only) entry with key k. -/
def dictGet (d : PyDict) (k : String) : Option PyVal :=
  (d.find? (fun kv => kv.1 == k)).map (fun kv => kv.2)

/-- Python d.get(k, v): lookup with a default. -/
def dictGetD (d : PyDict) (k : String) (v : PyVal) : PyVal :=
  (dictGet d k).getD v

/-- Python d[k] = v: replace the value of an existing key in place,
otherwise append the new entry at the end. -/
def dictInsert (d : PyDict) (k : String) (v : PyVal) : PyDict :=
  match d with
  | [] => [(k, v)]
  | (k0, v0) :: rest =>
      if k0 = k then (k, v) :: rest else (k0, v0) :: dictInsert rest k v

/-- Python dict-literal merge with double-star unpacking, as in
the expression in memory_store.py lines 281 to 286: start from the base
entries and assign every entry of m in order, later keys overriding. -/
def dictMerge (d : PyDict) (m : PyDict) : PyDict :=
  m.foldl (fun acc kv => dictInsert acc kv.1 kv.2) d

/-- The three metadata keys the store treats as first-class Memory fields
(memory_store.py line 328, tuple ("content", "client_id", "created_at")). -/
def reservedKeys : List String := ["content", "client_id", "created_at"]

/-- The value stored under key k, when the key is present at all, is a
string.  Reads of the three reserved keys succeed exactly on such maps
(a present non-string value would make datetime.fromisoformat or the
pydantic str fields raise). -/
def strOrAbsentB (d : PyDict) (k : String) : Bool :=
  match dictGet d k with
  | none => true
  | some (.vstr _) => true
  | some _ => false

/-- All three reserved keys of the map are absent or string-valued. -/
def metaWf (d : PyDict) : Bool :=
  reservedKeys.all (fun k => strOrAbsentB d k)

/-- The residual metadata map of a record: every entry whose key is not
one of the reserved keys (memory_store.py line 328). -/
def residualMeta (d : PyDict) : PyDict :=
  d.filter (fun kv => !(reservedKeys.contains kv.1))

/-- Total lookup of a string value with a default; agrees with the code
path meta.get(k, default) whenever the stored value is a string. -/
def getStrD (d : PyDict) (k : String) (dflt : String) : String :=
  match dictGet d k with
  | some (.vstr s) => s
  | _ => dflt

/-- Exceptions raised by the embedded code paths. -/
inductive PyErr where
  | valueError
  | typeError
deriving DecidableEq

/-- Outcomes of the embedded fallible code paths are compared in concrete
witnesses, so Except needs decidable equality. -/
instance {ε α : Type} [DecidableEq ε] [DecidableEq α] :
    DecidableEq (Except ε α) := fun a b =>
  match a, b with
  | .error e1, .error e2 =>
      if h : e1 = e2 then isTrue (by rw [h]) else isFalse (by simp [h])
  | .ok v1, .ok v2 =>
      if h : v1 = v2 then isTrue (by rw [h]) else isFalse (by simp [h])
  | .error _, .ok _ => isFalse (by simp)
  | .ok _, .error _ => isFalse (by simp)

/-- Validation of an optional metadata value against a pydantic str field,
with a default for an absent key: a present non-string raises. -/
def asStrD : Option PyVal → String → Except PyErr String
  | none, dflt => .ok dflt
  | some (.vstr s), _ => .ok s
  | some _, _ => .error .typeError

/-- The Memory pydantic model (models.py lines 7 to 14).  Datetimes are
represented by their ISO-8601 strings: the code only ever produces them
with datetime.utcnow().isoformat() and re-reads them with
datetime.fromisoformat, which is the identity on that representation. -/
structure Memory where
  id : String
  content : String
  embedding : Option (List ℚ)
  metadata : PyDict
  created_at : String
  client_id : String
deriving DecidableEq

/-- The SearchResult pydantic model (models.py lines 36 to 39). -/
structure SearchResult where
  memory : Memory
  score : ℚ
deriving DecidableEq

/-- A record as decoded by LongbowClient.download_all (memory_store.py
lines 186 to 195): the metadata cell is already run through json.loads
(absent column read as the empty map by the callers via .get), the vector
column may be absent. -/
structure Rec where
  id : String
  vector : Option (List ℚ)
  metadata : PyDict
  timestamp : Option String
deriving DecidableEq

/-- A record as passed to LongbowClient.insert (memory_store.py lines
95 to 98): metadata and timestamp are read with .get and may be absent. -/
structure InsRec where
  id : String
  vector : List ℚ
  metadata : Option PyDict
  timestamp : Option String
deriving DecidableEq

/-- The columnar table built by LongbowClient.insert (memory_store.py
lines 100 to 113): an id column, a flat float32 buffer chunked into
fixed-size lists of length dim, a serialized metadata column (each cell
modeled by the map it serializes, since json.dumps followed by json.loads
is the identity on JSON-safe maps), and a timestamp column. -/
structure WireTable where
  ids : List String
  dim : Nat
  flat : List ℚ
  metaCells : List PyDict
  timestamps : List String
deriving DecidableEq

/-- One row of a query response table inside LongbowClient.search
(memory_store.py lines 152 to 170).  A field is none when the
corresponding column is absent from the response. -/
structure QueryRow where
  id : Option PyVal
  score : Option ℚ
  distance : Option ℚ
  vector : Option (List ℚ)
  metadata : Option PyDict
deriving DecidableEq

/-- A processed row as returned by LongbowClient.search: the result dict
with its mandatory id and score entries (memory_store.py lines 155 to
169). -/
structure ProcessedRow where
  id : String
  score : ℚ
  vector : Option (List ℚ)
  metadata : Option PyDict
deriving DecidableEq

/-- The projection of a search row that MemoryStore.search consumes:
sr["id"] and sr.get("score", 0.0) (memory_store.py lines 311 to 312). -/
structure SRow where
  id : String
  score : Option ℚ
deriving DecidableEq

/-- One ASCII digit.  Python str.isdigit also accepts some non-ASCII
digit characters; the embedding restricts strings to ASCII, which every
identifier produced or stored by this code is. -/
def isAsciiDigit (c : Char) : Bool := decide ('0' ≤ c) && decide (c ≤ '9')

/-- Python str.isdigit restricted to ASCII: nonempty and all digits. -/
def pyIsdigit (s : String) : Bool :=
  !s.data.isEmpty && s.data.all isAsciiDigit

/-- Python s.lstrip with the argument given as a hyphen: drop every
leading hyphen. -/
def pyLstripDash (s : String) : String :=
  String.mk (s.data.dropWhile (fun c => c = '-'))

/-- The numeric value of a digit string. -/
def digitsToNat (cs : List Char) : Nat :=
  cs.foldl (fun n c => n * 10 + (c.toNat - Char.toNat '0')) 0

/-- Python int(s) on a string: strip surrounding whitespace, allow one
optional sign, then require a nonempty run of digits; anything else
raises ValueError (none).  Underscore digit separators are not modeled;
no identifier handled by the code contains them. -/
def pyInt (s : String) : Option Int :=
  let cs := ((s.data.dropWhile (fun c => c.isWhitespace)).reverse.dropWhile
      (fun c => c.isWhitespace)).reverse
  match cs with
  | [] => none
  | c :: rest =>
      if c = '-' then
        if !rest.isEmpty && rest.all isAsciiDigit then
          some (-(Int.ofNat (digitsToNat rest)))
        else none
      else if c = '+' then
        if !rest.isEmpty && rest.all isAsciiDigit then
          some (Int.ofNat (digitsToNat rest))
        else none
      else if (c :: rest).all isAsciiDigit then
        some (Int.ofNat (digitsToNat (c :: rest)))
      else none

/-- The guard of the positional fallback in MemoryStore.search line 318:
raw_id.isdigit() or raw_id.lstrip of hyphens .isdigit().  The isinstance
test in the source is always true there, since line 155 applies str to
every identifier. -/
def digitTest (s : String) : Bool :=
  pyIsdigit s || pyIsdigit (pyLstripDash s)

/-- Identifiers on which the reconciliation loop cannot raise: either the
digit guard fails, or int() succeeds on the raw identifier.  The only
strings violating this are digit runs behind two or more hyphens. -/
def goodId (s : String) : Bool :=
  !(digitTest s) || (pyInt s).isSome

/-- Python str() on the values an id cell can hold. -/
def pyStr : PyVal → String
  | .vstr s => s
  | .vint n => toString n
  | .vbool true => "True"
  | .vbool false => "False"
  | .vnull => "None"

/-- Lexicographic strict comparison of character lists by code point,
the comparison Python uses on strings: a proper prefix sorts first. -/
def charListLt : List Char → List Char → Bool
  | _, [] => false
  | [], _ :: _ => true
  | a :: as, b :: bs =>
      if a < b then true else if b < a then false else charListLt as bs

/-- Python string less-or-equal: not strictly greater. -/
def strLeB (a b : String) : Bool := !(charListLt b.data a.data)

/-- Connection failure surfaced by LongbowClient.connect after the retry
budget (memory_store.py line 50) or by opening the data channel. -/
inductive ConnErr where
  | connectionError
deriving DecidableEq

/-- Outcome of the CreateNamespace control action on the meta channel:
the action succeeds, the target already exists, or the transport fails
during the action. -/
inductive ActionErr where
  | alreadyExists
  | transportFailure
deriving DecidableEq

/-- A failed query: the remote store rejected the ticket or the transfer
failed mid-stream. -/
inductive QueryErr where
  | queryFailure
deriving DecidableEq

/-- LongbowClient.create_namespace (memory_store.py lines 61 to 73).
The call first runs _ensure_connected, whose connect failure propagates;
the do_action call itself sits inside a try block whose blanket except
logs and returns False, whatever the failure was.  The connection state
and the action outcome are passed as explicit parameters. -/
def createNamespaceCall (conn : Except ConnErr Unit)
    (action : Except ActionErr Unit) : Except ConnErr Bool :=
  match conn with
  | .error e => .error e
  | .ok _ =>
      match action with
      | .ok _ => .ok true
      | .error _ => .ok false

/-- The score of one response row (memory_store.py lines 157 to 164):
a score column value is passed through unchanged; with only a distance
column the client converts by score = 1 / (1 + distance); with neither,
the score is 1. -/
def rowScore (score : Option ℚ) (distance : Option ℚ) : ℚ :=
  match score with
  | some s => s
  | none =>
      match distance with
      | some d => 1 / (1 + d)
      | none => 1

/-- Processing of row i of a query response (memory_store.py lines 152
to 170): the raw identifier falls back to the row position when the id
column is absent, and is always rendered as a string. -/
def processRow (i : Nat) (row : QueryRow) : ProcessedRow :=
  { id := pyStr (row.id.getD (.vint (Int.ofNat i)))
  , score := rowScore row.score row.distance
  , vector := row.vector
  , metadata := row.metadata }

/-- LongbowClient.search (memory_store.py lines 133 to 175).
_ensure_connected runs before the try block, so connection errors
propagate; everything after it is inside the try block, whose except
logs the failure and returns the empty list.  The response is passed as
an explicit outcome parameter. -/
def lbSearch (conn : Except ConnErr Unit)
    (resp : Except QueryErr (List QueryRow)) :
    Except ConnErr (List ProcessedRow) :=
  match conn with
  | .error e => .error e
  | .ok _ =>
      match resp with
      | .error _ => .ok []
      | .ok rows => .ok (rows.enum.map (fun p => processRow p.1 p.2))

/-- LongbowClient.download_all (memory_store.py lines 177 to 200), with
the same shape: connection errors propagate, any failure of the download
itself degrades to the empty list.  The rows of a successful response
are passed already decoded. -/
def lbDownloadAll (conn : Except ConnErr Unit)
    (resp : Except QueryErr (List Rec)) : Except ConnErr (List Rec) :=
  match conn with
  | .error e => .error e
  | .ok _ =>
      match resp with
      | .error _ => .ok []
      | .ok recs => .ok recs

/-- LongbowClient.insert building the Arrow table (memory_store.py lines
94 to 113): the vector dimension is the length of the first vector, all
vectors are flattened into one float32 buffer, metadata cells are
serialized maps (empty map for an absent key), timestamps default to the
current time.  The empty batch returns early and builds no table. -/
def encodeBatch (now : String) (records : List InsRec) : Option WireTable :=
  match records with
  | [] => none
  | r0 :: _ =>
      some
        { ids := records.map (fun r => r.id)
        , dim := r0.vector.length
        , flat := (records.map (fun r => r.vector)).flatten
        , metaCells := records.map (fun r => r.metadata.getD [])
        , timestamps := records.map (fun r => r.timestamp.getD now) }

/-- The row decoding of LongbowClient.download_all applied to a table
(memory_store.py lines 186 to 195): row i takes the id cell i, chunk i
of the fixed-size-list vector column, the parsed metadata cell i, and
timestamp cell i.  Tables produced by insert always carry all four
columns. -/
def decodeTable (t : WireTable) : List Rec :=
  (List.range t.ids.length).map (fun i =>
    { id := t.ids.getD i ""
    , vector := some ((t.flat.drop (i * t.dim)).take t.dim)
    , metadata := t.metaCells.getD i []
    , timestamp := some (t.timestamps.getD i "") })

/-- Conversion of a resolved download record into a Memory (memory_store.py
lines 322 to 331, and identically lines 357 to 365): the reserved keys
become the first-class fields with defaults for absent keys (empty
content, current time, client "unknown"), everything else becomes the
residual metadata map.  A present non-string value under a reserved key
raises (datetime.fromisoformat, or the pydantic str field), modeled as a
typeError. -/
def memoryOfRecord (now : String) (r : Rec) : Except PyErr Memory :=
  match asStrD (dictGet r.metadata "content") "" with
  | .error e => .error e
  | .ok content =>
      match asStrD (dictGet r.metadata "created_at") now with
      | .error e => .error e
      | .ok created =>
          match asStrD (dictGet r.metadata "client_id") "unknown" with
          | .error e => .error e
          | .ok clientId =>
              .ok { id := r.id
                  , content := content
                  , embedding := r.vector
                  , metadata := residualMeta r.metadata
                  , created_at := created
                  , client_id := clientId }

/-- The total value of the conversion, agreeing with memoryOfRecord on
every record whose reserved metadata keys are absent or string-valued. -/
def memF (now : String) (r : Rec) : Memory :=
  { id := r.id
  , content := getStrD r.metadata "content" ""
  , embedding := r.vector
  , metadata := residualMeta r.metadata
  , created_at := getStrD r.metadata "created_at" now
  , client_id := getStrD r.metadata "client_id" "unknown" }

/-- The records_by_id dict of MemoryStore.search line 307: a dict
comprehension keyed by record id, so for duplicate ids the last record
wins; lookup of the comprehension equals a reverse search. -/
def byIdLookup (recs : List Rec) (k : String) : Option Rec :=
  recs.reverse.find? (fun r => r.id == k)

/-- The records_by_index dict of MemoryStore.search line 306, keyed by
enumeration order, read with .get: present exactly on ordinals 0 to
length - 1, so a negative or out-of-range index yields none. -/
def byIndexLookup (recs : List Rec) (i : Int) : Option Rec :=
  if 0 ≤ i then recs.get? i.toNat else none

/-- The reconciliation loop of MemoryStore.search (memory_store.py lines
309 to 337): for each query row try the id map, then, when the digit
guard passes, convert the identifier with int() and try the position
map; rows matching neither are logged and skipped; int() raises
ValueError on a guard-passing identifier it cannot parse, and that
exception propagates out of the loop. -/
def reconcileRows (now : String) (recs : List Rec) :
    List SRow → Except PyErr (List SearchResult)
  | [] => .ok []
  | row :: rest =>
      let record : Except PyErr (Option Rec) :=
        match byIdLookup recs row.id with
        | some r => .ok (some r)
        | none =>
            if digitTest row.id then
              match pyInt row.id with
              | some idx => .ok (byIndexLookup recs idx)
              | none => .error .valueError
            else .ok none
      match record with
      | .error e => .error e
      | .ok (some r) =>
          match memoryOfRecord now r with
          | .error e => .error e
          | .ok m =>
              match reconcileRows now recs rest with
              | .error e => .error e
              | .ok tail => .ok ({ memory := m, score := row.score.getD 0 } :: tail)
      | .ok none => reconcileRows now recs rest

/-- Per-row resolution, stated as a pure function of the download: id
lookup first, then the positional fallback for identifiers passing the
digit guard, and no record otherwise. -/
def resolveRecord (recs : List Rec) (rawId : String) : Option Rec :=
  match byIdLookup recs rawId with
  | some r => some r
  | none =>
      if digitTest rawId then (pyInt rawId).bind (byIndexLookup recs)
      else none

/-- Per-row specification of the reconciliation output. -/
def resolveSpec (now : String) (recs : List Rec) (row : SRow) :
    Option SearchResult :=
  (resolveRecord recs row.id).map
    (fun r => { memory := memF now r, score := row.score.getD 0 })

/-- The sort key of MemoryStore.list_memories lines 347 to 350:
r.get("metadata", curly braces).get("created_at", empty string).  The
value is a string on every record this store writes; a non-string value
would make the Python comparison raise, which is outside every verified
claim (the list theorems carry a metaWf hypothesis). -/
def createdKey (r : Rec) : String :=
  getStrD r.metadata "created_at" ""

/-- The descending created_at ordering used by the sort, as a relation:
a may precede b when the key of b is at most the key of a. -/
def recGE (a b : Rec) : Prop :=
  strLeB (createdKey b) (createdKey a) = true

instance : DecidableRel recGE := fun a b =>
  inferInstanceAs (Decidable (strLeB (createdKey b) (createdKey a) = true))

instance : IsTotal Rec recGE := by
  constructor
  intro a b
  simp only [recGE, strLeB, Bool.not_eq_true', Bool.not_eq_false]
  have asymm : ∀ xs ys : List Char,
      charListLt xs ys = true → charListLt ys xs = false := by
    intro xs
    induction xs with
    | nil =>
        intro ys _
        cases ys with
        | nil => rfl
        | cons y ys => rfl
    | cons x xs ih =>
        intro ys h
        cases ys with
        | nil => simp [charListLt] at h
        | cons y ys =>
            simp only [charListLt] at h ⊢
            rcases lt_trichotomy x y with hxy | hxy | hxy
            · simp [hxy, not_lt_of_gt hxy, lt_asymm hxy]
            · subst hxy
              simp only [lt_irrefl, if_false] at h ⊢
              exact ih ys h
            · simp [hxy, not_lt_of_gt hxy, lt_asymm hxy] at h
  rcases Bool.eq_false_or_eq_true
      (charListLt (createdKey a).data (createdKey b).data) with h | h
  · exact Or.inr (asymm _ _ h)
  · exact Or.inl h

instance : IsTrans Rec recGE := by
  constructor
  have letrans : ∀ xs ys zs : List Char,
      charListLt ys xs = false → charListLt zs ys = false →
      charListLt zs xs = false := by
    intro xs
    induction xs with
    | nil =>
        intro ys zs h1 h2
        cases zs with
        | nil => rfl
        | cons z zs => rfl
    | cons x xs ih =>
        intro ys zs h1 h2
        cases zs with
        | nil =>
            cases ys with
            | nil => simp [charListLt] at h1
            | cons y ys => simp [charListLt] at h2
        | cons z zs =>
            cases ys with
            | nil => simp [charListLt] at h1
            | cons y ys =>
                simp only [charListLt] at h1 h2 ⊢
                have hyx : ¬ y < x := by
                  intro hc
                  simp [hc] at h1
                have hzy : ¬ z < y := by
                  intro hc
                  simp [hc] at h2
                have hzx : ¬ z < x := fun hc =>
                  hzy (lt_of_lt_of_le hc (le_of_not_lt hyx))
                simp only [hzx, if_false]
                by_cases hxz : x < z
                · simp [hxz]
                · have hxy : ¬ x < y := fun hc =>
                    hxz (lt_of_lt_of_le hc (le_of_not_lt hzy))
                  have hyz : ¬ y < z := fun hc =>
                    hxz (lt_of_le_of_lt (le_of_not_lt hyx) hc)
                  simp only [hxz, if_false]
                  simp only [hxy, hyx, if_false] at h1
                  simp only [hyz, hzy, if_false] at h2
                  exact ih ys zs h1 h2
  intro a b c hab hbc
  simp only [recGE, strLeB, Bool.not_eq_true'] at hab hbc ⊢
  exact letrans _ _ _ hbc hab

/-- The stable descending sort of list_memories line 347: Python
list.sort with a key and reverse=True keeps the original order of
records with equal keys, exactly as insertion sort with this relation
does. -/
def sortDesc (recs : List Rec) : List Rec :=
  List.insertionSort recGE recs

/-- MemoryStore.list_memories (memory_store.py lines 339 to 367): count
the full download, sort it by created_at descending, slice from offset
to offset plus limit, and convert every sliced record to a Memory. -/
def listMemories (now : String) (recs : List Rec) (limit offset : Nat) :
    Except PyErr (List Memory × Nat) :=
  let total := recs.length
  let paginated := ((sortDesc recs).drop offset).take limit
  match paginated.mapM (memoryOfRecord now) with
  | .error e => .error e
  | .ok mems => .ok (mems, total)

/-- The namespace every MemoryStore operation targets (memory_store.py
line 226). -/
def NAMESPACE : String := "mcp_memories"

/-- The remote store as visible through the meta channel: the named
datasets and their rows, in creation order. -/
abbrev ServerState := List (String × List Rec)

/-- The dataset stored under a name, if any. -/
def svGet (s : ServerState) (ns : String) : Option (List Rec) :=
  (s.find? (fun p => p.1 == ns)).map (fun p => p.2)

/-- download_all against a server state: a missing dataset makes do_get
fail, the blanket except turns that into the empty list (memory_store.py
lines 177 to 200). -/
def clientDownloadAll (s : ServerState) (ns : String) : List Rec :=
  (svGet s ns).getD []

/-- delete_namespace (memory_store.py lines 202 to 213): remove the
dataset; a failing action (missing dataset) is caught and reported as
False with the state unchanged. -/
def clientDeleteNamespace (s : ServerState) (ns : String) :
    ServerState × Bool :=
  match svGet s ns with
  | some _ => (s.filter (fun p => !(p.1 == ns)), true)
  | none => (s, false)

/-- create_namespace without force (memory_store.py lines 61 to 73):
an existing target makes the action fail, which is swallowed as False
with the state unchanged; otherwise the empty dataset is created. -/
def clientCreateNamespace (s : ServerState) (ns : String) :
    ServerState × Bool :=
  match svGet s ns with
  | some _ => (s, false)
  | none => ((ns, []) :: s, true)

/-- MemoryStore.delete_all (memory_store.py lines 369 to 381): download
the namespace to count it, delete the namespace, recreate it, and return
the pre-deletion count together with the resulting server state. -/
def storeDeleteAll (s : ServerState) : Nat × ServerState :=
  let count := (clientDownloadAll s NAMESPACE).length
  let s1 := (clientDeleteNamespace s NAMESPACE).1
  let s2 := (clientCreateNamespace s1 NAMESPACE).1
  (count, s2)

/-- The dict returned by MemoryStore.get_stats (memory_store.py lines
383 to 409). -/
structure Stats where
  total_memories : Nat
  unique_clients : Nat
  oldest_memory : Option String
  newest_memory : Option String
  backend : String
deriving DecidableEq

/-- One step of the oldest and newest fold of get_stats lines 393 to
401: an absent created_at (None) and an empty string are both falsy and
skipped; a present string updates the running min and max.  A non-string
value would make the Python comparison raise and is modeled as skipped,
outside every verified claim. -/
def statsUpd (acc : Option String × Option String) (r : Rec) :
    Option String × Option String :=
  match dictGet r.metadata "created_at" with
  | some (.vstr s) =>
      if s = "" then acc
      else
        ( match acc.1 with
          | none => some s
          | some o => if s < o then some s else some o
        , match acc.2 with
          | none => some s
          | some n => if n < s then some s else some n )
  | _ => acc

/-- MemoryStore.get_stats (memory_store.py lines 383 to 409): a full
download, the count, the cardinality of the set of client ids (with
"unknown" for an absent key), and the min and max created_at strings. -/
def storeGetStats (s : ServerState) : Stats :=
  let recs := clientDownloadAll s NAMESPACE
  let acc := recs.foldl statsUpd (none, none)
  { total_memories := recs.length
  , unique_clients :=
      (recs.map (fun r => dictGetD r.metadata "client_id" (.vstr "unknown"))).dedup.length
  , oldest_memory := acc.1
  , newest_memory := acc.2
  , backend := "longbow" }

/-- The three canonical metadata entries written by add_memory
(memory_store.py lines 282 to 284), in source order. -/
def canonicalMeta (content clientId nowIso : String) : PyDict :=
  [ ("content", .vstr content)
  , ("client_id", .vstr clientId)
  , ("created_at", .vstr nowIso) ]

/-- The record uploaded by MemoryStore.add_memory (memory_store.py lines
278 to 288): the caller metadata map is unpacked after the canonical
entries, so a caller entry under a reserved key overrides the canonical
value. -/
def addMemoryUpload (memId content clientId nowIso : String)
    (embedding : List ℚ) (metadata : Option PyDict) : InsRec :=
  { id := memId
  , vector := embedding
  , metadata := some (dictMerge (canonicalMeta content clientId nowIso) (metadata.getD []))
  , timestamp := some nowIso }

/-- The Memory object add_memory itself returns (memory_store.py lines
267 to 274): built from the canonical values, with the caller metadata
map stored verbatim. -/
def addMemoryReturn (memId content clientId nowIso : String)
    (embedding : List ℚ) (metadata : Option PyDict) : Memory :=
  { id := memId
  , content := content
  , embedding := some embedding
  , metadata := metadata.getD []
  , created_at := nowIso
  , client_id := clientId }

/-- The uploaded record as it comes back from download_all.  By the
codec round trip (theorem c5_wire_roundtrip) the id, vector, and
metadata survive unchanged, and the timestamp column returns the upload
timestamp. -/
def recOfIns (u : InsRec) : Rec :=
  { id := u.id
  , vector := some u.vector
  , metadata := u.metadata.getD []
  , timestamp := u.timestamp }

/-- The methods the MemoryStore class defines (memory_store.py lines 223
to 409, in source order). -/
def memoryStoreMethodNames : List String :=
  [ "__init__", "_get_model", "_get_client", "add_memory", "search"
  , "list_memories", "delete_all", "get_stats" ]

/-- The store methods the REST and WebSocket layer invokes on the
MemoryStore instance (api.py lifespan, stats, memory CRUD, search,
graph, dataset and snapshot endpoints, and the websocket actions). -/
def facadeMethodsCalledByApi : List String :=
  [ "get_stats", "add_memory", "list_memories", "delete_all", "search"
  , "hybrid_search", "search_by_id", "filtered_search", "add_edge"
  , "traverse", "get_dataset_info", "snapshot" ]

/-- A 384-component float32 vector used by the codec witness. -/
def exVec384 : List ℚ := List.replicate 384 (1/2)

/-- A concrete insert-side record with a full-dimension vector and one
non-reserved metadata entry. -/
def exIns : InsRec :=
  { id := "mem-1"
  , vector := exVec384
  , metadata := some [("topic", .vstr "sky")]
  , timestamp := some "2024-01-01T00:00:00" }

/-- A download record with an empty metadata map, as produced by an
upload that carried no metadata. -/
def exRecEmpty : Rec :=
  { id := "e1", vector := none, metadata := [], timestamp := none }

/-- A download record addressable by its id in the reconciliation
witness. -/
def cRecA : Rec :=
  { id := "aaa-1"
  , vector := none
  , metadata := [ ("content", .vstr "the sky is blue")
                , ("client_id", .vstr "c1")
                , ("created_at", .vstr "2024-01-01T00:00:00") ]
  , timestamp := some "2024-01-01T00:00:00" }

/-- A download record addressable only by its ordinal (position 1) in
the reconciliation witness. -/
def cRecB : Rec :=
  { id := "bbb-2"
  , vector := none
  , metadata := [ ("content", .vstr "water is wet")
                , ("client_id", .vstr "c2")
                , ("created_at", .vstr "2024-01-02T00:00:00") ]
  , timestamp := some "2024-01-02T00:00:00" }

/-- One of five records with distinct timestamps for the pagination
witness: day i of January 2024, content mi. -/
def lRec (i : Nat) : Rec :=
  { id := String.append "m" (toString i)
  , vector := none
  , metadata := [ ("content", .vstr (String.append "memory " (toString i)))
                , ("client_id", .vstr "c1")
                , ("created_at", .vstr (String.append "2024-01-0" (String.append (toString i) "T00:00:00"))) ]
  , timestamp := none }

/-- The five records of the pagination witness in scrambled insertion
order. -/
def exRecs5 : List Rec := [lRec 3, lRec 1, lRec 5, lRec 2, lRec 4]

/-- Seven records for the delete-all witness. -/
def recs7 : List Rec := List.replicate 7 exRecEmpty

theorem dictGet_cons (k0 : String) (v0 : PyVal) (rest : PyDict) (k : String) :
    dictGet ((k0, v0) :: rest) k = if k0 = k then some v0 else dictGet rest k := by
  by_cases h : k0 = k
  · rw [if_pos h]
    unfold dictGet
    rw [List.find?_cons_of_pos _ (by simpa using h)]
    rfl
  · rw [if_neg h]
    unfold dictGet
    rw [List.find?_cons_of_neg _ (by simpa using h)]

theorem dictGet_dictInsert_self (d : PyDict) (k : String) (v : PyVal) :
    dictGet (dictInsert d k v) k = some v := by
  induction d with
  | nil => rw [show dictInsert [] k v = [(k, v)] from rfl, dictGet_cons, if_pos rfl]
  | cons kv rest ih =>
      rcases kv with ⟨a, b⟩
      by_cases h : a = k
      · rw [show dictInsert ((a, b) :: rest) k v = (k, v) :: rest by
            simp [dictInsert, h]]
        rw [dictGet_cons, if_pos rfl]
      · rw [show dictInsert ((a, b) :: rest) k v = (a, b) :: dictInsert rest k v by
            simp [dictInsert, h]]
        rw [dictGet_cons, if_neg h, ih]

theorem dictGet_dictInsert_ne (d : PyDict) (k k' : String) (v : PyVal)
    (h : k' ≠ k) : dictGet (dictInsert d k v) k' = dictGet d k' := by
  induction d with
  | nil =>
      rw [show dictInsert [] k v = [(k, v)] from rfl, dictGet_cons]
      rw [if_neg (fun hc => h hc.symm)]
  | cons kv rest ih =>
      rcases kv with ⟨a, b⟩
      by_cases hk : a = k
      · subst hk
        rw [show dictInsert ((a, b) :: rest) a v = (a, v) :: rest by
            simp [dictInsert]]
        rw [dictGet_cons, dictGet_cons]
        rw [if_neg (fun hc => h hc.symm), if_neg (fun hc => h hc.symm)]
      · rw [show dictInsert ((a, b) :: rest) k v = (a, b) :: dictInsert rest k v by
            simp [dictInsert, hk]]
        rw [dictGet_cons, dictGet_cons, ih]

theorem dictGet_eq_none_of_not_mem (m : PyDict) (k : String)
    (h : k ∉ m.map Prod.fst) : dictGet m k = none := by
  induction m with
  | nil => rfl
  | cons kv rest ih =>
      rcases kv with ⟨a, b⟩
      simp only [List.map_cons, List.mem_cons] at h
      push_neg at h
      rw [dictGet_cons, if_neg (fun hc => h.1 hc.symm)]
      exact ih h.2

theorem dictGet_dictMerge (d m : PyDict) (k : String)
    (h : (m.map Prod.fst).Nodup) :
    dictGet (dictMerge d m) k = (dictGet m k).elim (dictGet d k) some := by
  induction m generalizing d with
  | nil => simp [dictMerge, dictGet]
  | cons kv rest ih =>
      rcases kv with ⟨k0, v0⟩
      simp only [List.map_cons, List.nodup_cons] at h
      have hstep : dictMerge d ((k0, v0) :: rest) = dictMerge (dictInsert d k0 v0) rest := rfl
      rw [hstep, ih (dictInsert d k0 v0) h.2, dictGet_cons]
      by_cases hk : k0 = k
      · subst hk
        rw [if_pos rfl, dictGet_eq_none_of_not_mem rest k0 h.1]
        simp [dictGet_dictInsert_self]
      · rw [if_neg hk]
        cases hrest : dictGet rest k with
        | some v => simp
        | none => simp [dictGet_dictInsert_ne d k0 k v0 (fun hc => hk hc.symm)]

theorem asStrD_of_wf (d : PyDict) (k dflt : String)
    (h : strOrAbsentB d k = true) :
    asStrD (dictGet d k) dflt = .ok (getStrD d k dflt) := by
  unfold strOrAbsentB at h
  unfold getStrD
  cases hc : dictGet d k with
  | none => rfl
  | some v =>
      rw [hc] at h
      cases v with
      | vstr s => rfl
      | vint n => simp at h
      | vbool b => simp at h
      | vnull => simp at h

theorem memoryOfRecord_ok (now : String) (r : Rec)
    (h1 : strOrAbsentB r.metadata "content" = true)
    (h2 : strOrAbsentB r.metadata "created_at" = true)
    (h3 : strOrAbsentB r.metadata "client_id" = true) :
    memoryOfRecord now r = .ok (memF now r) := by
  unfold memoryOfRecord
  rw [asStrD_of_wf _ _ _ h1, asStrD_of_wf _ _ _ h2, asStrD_of_wf _ _ _ h3]
  rfl

theorem metaWf_parts (d : PyDict) (h : metaWf d = true) :
    strOrAbsentB d "content" = true
    ∧ strOrAbsentB d "created_at" = true
    ∧ strOrAbsentB d "client_id" = true := by
  simp only [metaWf, reservedKeys, List.all_cons, List.all_nil,
    Bool.and_eq_true, Bool.and_true] at h
  exact ⟨h.1, h.2.2, h.2.1⟩

theorem mapM_memoryOfRecord (now : String) (l : List Rec)
    (h : ∀ r ∈ l, metaWf r.metadata = true) :
    l.mapM (memoryOfRecord now) = .ok (l.map (memF now)) := by
  induction l with
  | nil => rfl
  | cons r rest ih =>
      have hr := metaWf_parts r.metadata (h r (by simp))
      have hrest := ih (fun x hx => h x (by simp [hx]))
      rw [List.mapM_cons, memoryOfRecord_ok now r hr.1 hr.2.1 hr.2.2]
      rw [show (rest.mapM (memoryOfRecord now) : Except PyErr (List Memory))
            = _ from hrest]
      rfl

theorem byIdLookup_mem (recs : List Rec) (k : String) (r : Rec)
    (h : byIdLookup recs k = some r) : r ∈ recs := by
  unfold byIdLookup at h
  exact List.mem_reverse.mp (List.mem_of_find?_eq_some h)

theorem byIndexLookup_mem (recs : List Rec) (i : Int) (r : Rec)
    (h : byIndexLookup recs i = some r) : r ∈ recs := by
  unfold byIndexLookup at h
  split at h
  · exact List.get?_mem h
  · exact absurd h (by simp)

theorem svGet_cons (a : String) (rs : List Rec) (s : ServerState)
    (ns : String) :
    svGet ((a, rs) :: s) ns = if a = ns then some rs else svGet s ns := by
  by_cases h : a = ns
  · rw [if_pos h]
    unfold svGet
    rw [List.find?_cons_of_pos _ (by simpa using h)]
    rfl
  · rw [if_neg h]
    unfold svGet
    rw [List.find?_cons_of_neg _ (by simpa using h)]

theorem svGet_filterNe (s : ServerState) (ns : String) :
    svGet (s.filter (fun p => !(p.1 == ns))) ns = none := by
  induction s with
  | nil => rfl
  | cons p s ih =>
      rcases p with ⟨a, rs⟩
      by_cases h : a = ns
      · rw [List.filter_cons_of_neg (by simpa using h)]
        exact ih
      · rw [List.filter_cons_of_pos (by simpa using h)]
        rw [svGet_cons, if_neg h]
        exact ih

/-- Claim C2, divergence witness: the REST and WebSocket layer invokes
hybrid_search, search_by_id, filtered_search, and snapshot on the
MemoryStore instance, but the MemoryStore class defines none of them
(its methods are exactly the listed eight), so those endpoints raise
AttributeError instead of building query options and reconciling rows.
The basic add, search, list, delete-all, and stats operations do
exist. -/
theorem c2_facade_methods_missing :
    ("hybrid_search" ∈ facadeMethodsCalledByApi
      ∧ "hybrid_search" ∉ memoryStoreMethodNames)
    ∧ ("search_by_id" ∈ facadeMethodsCalledByApi
      ∧ "search_by_id" ∉ memoryStoreMethodNames)
    ∧ ("filtered_search" ∈ facadeMethodsCalledByApi
      ∧ "filtered_search" ∉ memoryStoreMethodNames)
    ∧ ("snapshot" ∈ facadeMethodsCalledByApi
      ∧ "snapshot" ∉ memoryStoreMethodNames)
    ∧ "add_memory" ∈ memoryStoreMethodNames
    ∧ "search" ∈ memoryStoreMethodNames
    ∧ "list_memories" ∈ memoryStoreMethodNames
    ∧ "delete_all" ∈ memoryStoreMethodNames
    ∧ "get_stats" ∈ memoryStoreMethodNames := by
  decide

/-- Claim C3: a score column is returned as-is; with only a distance
column the client converts by score = 1 / (1 + distance), so distance 0
gives score 1, distance 3 gives score 1/4, and on the nonnegative
distances a response can carry the converted score is strictly
decreasing in the distance. -/
theorem c3_score_conversion :
    (∀ (s : ℚ) (d : Option ℚ), rowScore (some s) d = s)
    ∧ (∀ d : ℚ, rowScore none (some d) = 1 / (1 + d))
    ∧ rowScore none (some 0) = 1
    ∧ rowScore none (some 3) = 1/4
    ∧ (∀ d1 d2 : ℚ, 0 ≤ d1 → d1 < d2 →
        rowScore none (some d2) < rowScore none (some d1)) := by
  refine ⟨fun s d => rfl, fun d => rfl, by norm_num [rowScore], by norm_num [rowScore], ?_⟩
  intro d1 d2 h0 hlt
  show (1 : ℚ) / (1 + d2) < 1 / (1 + d1)
  have h1 : (0 : ℚ) < 1 + d1 := by linarith
  have h2 : (1 : ℚ) + d1 < 1 + d2 := by linarith
  exact one_div_lt_one_div_of_lt h1 h2

/-- Claim C3 witness: the conversion theorem instantiated at score 7/10,
at distances 0 and 3, and at the concrete pair 1 < 3 of distances. -/
theorem c3_witness :
    rowScore (some (7/10)) (some 2) = 7/10
    ∧ rowScore none (some 0) = 1
    ∧ rowScore none (some 3) = 1/4
    ∧ (0 : ℚ) ≤ 1
    ∧ (1 : ℚ) < 3
    ∧ rowScore none (some 3) < rowScore none (some 1) := by
  refine ⟨c3_score_conversion.1 (7/10) (some 2),
    c3_score_conversion.2.2.1,
    c3_score_conversion.2.2.2.1,
    by norm_num, by norm_num,
    c3_score_conversion.2.2.2.2 1 3 (by norm_num) (by norm_num)⟩

/-- Claim C8, counterexample: with an established connection, a
create-namespace action that fails with a genuine transport failure is
swallowed by the blanket except clause and reported as False; it is not
propagated to the caller as a connectivity error, contradicting the
claim that true transport failures are raised. -/
theorem c8_counterexample :
    createNamespaceCall (.ok ()) (.error .transportFailure) = .ok false
    ∧ createNamespaceCall (.ok ()) (.error .transportFailure)
        ≠ .error .connectionError := by
  exact ⟨rfl, by decide⟩

/-- Claim C8, amended: an already-existing target is indeed never fatal,
but the blanket except swallows every failure of the create-namespace
action itself, transport failures included, returning False; the only
failures that propagate are connection-establishment failures raised by
the ensure-connected step before the action runs. -/
theorem c8_create_namespace :
    (∀ e : ActionErr, createNamespaceCall (.ok ()) (.error e) = .ok false)
    ∧ createNamespaceCall (.ok ()) (.error .alreadyExists) = .ok false
    ∧ createNamespaceCall (.ok ()) (.ok ()) = .ok true
    ∧ (∀ (ce : ConnErr) (act : Except ActionErr Unit),
        createNamespaceCall (.error ce) act = .error ce) := by
  exact ⟨fun e => rfl, rfl, rfl, fun ce act => rfl⟩

/-- Claim C9: whenever the remote store rejects or fails a query, the
failure is caught and degraded to the empty result list, for both the
search path and the full-download path; and with an established
connection the search call never surfaces an error to its caller,
whatever the response outcome was. -/
theorem c9_query_failure_degrades :
    (∀ e : QueryErr, lbSearch (.ok ()) (.error e) = .ok [])
    ∧ (∀ e : QueryErr, lbDownloadAll (.ok ()) (.error e) = .ok [])
    ∧ (∀ resp : Except QueryErr (List QueryRow),
        ∃ rows, lbSearch (.ok ()) resp = .ok rows) := by
  refine ⟨fun e => rfl, fun e => rfl, fun resp => ?_⟩
  cases resp with
  | error e => exact ⟨[], rfl⟩
  | ok rows => exact ⟨_, rfl⟩

/-- Claim C5: encoding a single record with a 384-component vector and a
string-keyed metadata map that avoids the reserved keys, then decoding
the table, reproduces the record id exactly, the vector (whose rational
components stand for their float32 values, so the float32 cast is the
identity on them), and the metadata map; the timestamp column returns
the upload timestamp, defaulted to the current time. -/
theorem c5_wire_roundtrip (now : String) (r : InsRec) (m : PyDict)
    (h384 : r.vector.length = 384)
    (hm : r.metadata = some m)
    (hres : ∀ k ∈ reservedKeys, dictGet m k = none) :
    (encodeBatch now [r]).map decodeTable
      = some [{ id := r.id, vector := some r.vector, metadata := m
              , timestamp := some (r.timestamp.getD now) }] := by
  have hr1 : List.range 1 = [0] := rfl
  simp [encodeBatch, decodeTable, hm, hr1]

/-- Claim C5 witness: the round trip evaluated on a concrete record with
a 384-component vector and the metadata map with single key topic. -/
theorem c5_witness :
    exIns.vector.length = 384
    ∧ exIns.metadata = some [("topic", PyVal.vstr "sky")]
    ∧ (∀ k ∈ reservedKeys, dictGet [("topic", PyVal.vstr "sky")] k = none)
    ∧ (encodeBatch "N" [exIns]).map decodeTable
        = some [{ id := exIns.id, vector := some exIns.vector
                , metadata := [("topic", PyVal.vstr "sky")]
                , timestamp := some (exIns.timestamp.getD "N") }] := by
  have hlen : exIns.vector.length = 384 := by
    rw [show exIns.vector = exVec384 from rfl, exVec384, List.length_replicate]
  refine ⟨hlen, rfl, by decide, ?_⟩
  exact c5_wire_roundtrip "N" exIns [("topic", PyVal.vstr "sky")]
    hlen rfl (by decide)

/-- Claim C7: delete_all counts the records of the namespace via a full
download, deletes and recreates the namespace, and returns the
pre-deletion count; a get_stats call against the resulting state reports
zero total memories. -/
theorem c7_delete_all_and_stats (s : ServerState) (recs : List Rec)
    (h : svGet s NAMESPACE = some recs) :
    (storeDeleteAll s).1 = recs.length
    ∧ (storeGetStats (storeDeleteAll s).2).total_memories = 0 := by
  have hdl : clientDownloadAll s NAMESPACE = recs := by
    simp [clientDownloadAll, h]
  have hdel : (clientDeleteNamespace s NAMESPACE).1
      = s.filter (fun p => !(p.1 == NAMESPACE)) := by
    simp [clientDeleteNamespace, h]
  have hnone : svGet (clientDeleteNamespace s NAMESPACE).1 NAMESPACE = none := by
    rw [hdel]
    exact svGet_filterNe s NAMESPACE
  have hcre : (clientCreateNamespace (clientDeleteNamespace s NAMESPACE).1 NAMESPACE).1
      = (NAMESPACE, []) :: (clientDeleteNamespace s NAMESPACE).1 := by
    simp [clientCreateNamespace, hnone]
  constructor
  · simp [storeDeleteAll, hdl]
  · have h2 : (storeDeleteAll s).2
        = (NAMESPACE, []) :: (clientDeleteNamespace s NAMESPACE).1 := hcre
    rw [h2]
    simp [storeGetStats, clientDownloadAll, svGet_cons]

/-- Claim C7 witness: the theorem evaluated on a server whose namespace
holds seven records, returning count 7 and post-deletion stats total
zero. -/
theorem c7_witness :
    svGet [(NAMESPACE, recs7)] NAMESPACE = some recs7
    ∧ (storeDeleteAll [(NAMESPACE, recs7)]).1 = 7
    ∧ (storeGetStats (storeDeleteAll [(NAMESPACE, recs7)]).2).total_memories = 0 := by
  have h := c7_delete_all_and_stats [(NAMESPACE, recs7)] recs7 (by decide)
  refine ⟨by decide, ?_, h.2⟩
  rw [h.1]
  decide

/-- Claim C4: a resolved record is converted to a Memory by splitting
its metadata map into the first-class fields and the residual map of all
other keys; an absent created_at defaults to the current time, an absent
client_id defaults to unknown, an absent content defaults to the empty
string, and under those defaults the conversion always succeeds, so a
read never fails because upload-time metadata was incomplete. -/
theorem c4_memory_from_record (now : String) (r : Rec)
    (h1 : strOrAbsentB r.metadata "content" = true)
    (h2 : strOrAbsentB r.metadata "created_at" = true)
    (h3 : strOrAbsentB r.metadata "client_id" = true) :
    memoryOfRecord now r = .ok (memF now r)
    ∧ (memF now r).metadata = residualMeta r.metadata
    ∧ (memF now r).content = getStrD r.metadata "content" ""
    ∧ (dictGet r.metadata "created_at" = none → (memF now r).created_at = now)
    ∧ (dictGet r.metadata "client_id" = none → (memF now r).client_id = "unknown")
    ∧ (∀ s, dictGet r.metadata "content" = some (.vstr s)
        → (memF now r).content = s)
    ∧ (∀ s, dictGet r.metadata "created_at" = some (.vstr s)
        → (memF now r).created_at = s)
    ∧ (∀ s, dictGet r.metadata "client_id" = some (.vstr s)
        → (memF now r).client_id = s) := by
  refine ⟨memoryOfRecord_ok now r h1 h2 h3, rfl, rfl, ?_, ?_, ?_, ?_, ?_⟩
  · intro h
    simp [memF, getStrD, h]
  · intro h
    simp [memF, getStrD, h]
  · intro s h
    simp [memF, getStrD, h]
  · intro s h
    simp [memF, getStrD, h]
  · intro s h
    simp [memF, getStrD, h]

/-- Claim C4 witness: the conversion theorem evaluated on a record whose
upload carried no metadata at all: the read succeeds, created_at falls
back to the current time and client_id to unknown. -/
theorem c4_witness :
    strOrAbsentB exRecEmpty.metadata "content" = true
    ∧ memoryOfRecord "NOW" exRecEmpty = .ok (memF "NOW" exRecEmpty)
    ∧ (memF "NOW" exRecEmpty).created_at = "NOW"
    ∧ (memF "NOW" exRecEmpty).client_id = "unknown"
    ∧ (memF "NOW" exRecEmpty).content = ""
    ∧ (memF "NOW" exRecEmpty).metadata = [] := by
  have h := c4_memory_from_record "NOW" exRecEmpty (by decide) (by decide) (by decide)
  exact ⟨by decide, h.1, h.2.2.2.1 (by decide), h.2.2.2.2.1 (by decide),
    by decide, by decide⟩

/-- Claim C6: list_memories downloads all records, sorts them by
created_at in descending string-lexicographic order (the sort is a
permutation of the download that is pairwise descending on the key),
returns the slice from offset to offset plus limit converted to
Memories, and reports total as the full unsliced count. -/
theorem c6_list_memories (now : String) (recs : List Rec)
    (limit offset : Nat)
    (hmeta : ∀ r ∈ recs, metaWf r.metadata = true) :
    listMemories now recs limit offset
      = .ok ((((sortDesc recs).drop offset).take limit).map (memF now),
             recs.length)
    ∧ List.Sorted recGE (sortDesc recs)
    ∧ (sortDesc recs).Perm recs := by
  have hperm : (sortDesc recs).Perm recs := List.perm_insertionSort recGE recs
  refine ⟨?_, List.sorted_insertionSort recGE recs, hperm⟩
  have hsub : ∀ r ∈ ((sortDesc recs).drop offset).take limit,
      metaWf r.metadata = true := by
    intro r hr
    exact hmeta r (hperm.subset (List.mem_of_mem_drop (List.mem_of_mem_take hr)))
  show (match (((sortDesc recs).drop offset).take limit).mapM (memoryOfRecord now) with
    | Except.error e => Except.error e
    | Except.ok mems => Except.ok (mems, recs.length))
    = Except.ok ((((sortDesc recs).drop offset).take limit).map (memF now),
                 recs.length)
  rw [mapM_memoryOfRecord now _ hsub]

/-- Claim C6 witness: over five memories with distinct timestamps,
limit 2 and offset 1 return exactly the second and third most recent in
descending created_at order, with total 5. -/
theorem c6_witness :
    (∀ r ∈ exRecs5, metaWf r.metadata = true)
    ∧ listMemories "NOW" exRecs5 2 1
        = .ok ([memF "NOW" (lRec 4), memF "NOW" (lRec 3)], 5) := by
  refine ⟨by decide, ?_⟩
  rw [(c6_list_memories "NOW" exRecs5 2 1 (by decide)).1]
  decide

/-- Claim C1, counterexample: a query row whose raw identifier is a
digit run behind two leading hyphens passes the digit guard (lstrip
removes every hyphen), so the loop calls int() on it, which raises
ValueError; the row is not dropped and the call raises instead of
returning a partial list. -/
theorem c1_counterexample :
    reconcileRows "T" [] [{ id := "--5", score := some 1 }]
      = .error .valueError := by
  decide

/-- Claim C1, amended: for every query row, reconciliation first
attempts the by-id lookup of the raw identifier; if that fails and the
identifier passes the digit guard (itself a digit run, or one after
stripping leading hyphens), int() converts it and the loop retries the
positional lookup, tolerating negatives, which miss; rows resolving to
neither lookup are dropped, preserving the order of the remaining rows,
so the call returns the partial result list given row-by-row by
resolveSpec.  The guard is needed as a hypothesis because an identifier
with two or more leading hyphens before the digits makes int() raise
ValueError instead of the row being dropped (theorem c1_counterexample);
on every other identifier the claimed behavior holds. -/
theorem c1_reconciliation (now : String) (recs : List Rec)
    (rows : List SRow)
    (hids : ∀ row ∈ rows, goodId row.id = true)
    (hmeta : ∀ r ∈ recs, metaWf r.metadata = true) :
    reconcileRows now recs rows
      = .ok (rows.filterMap (resolveSpec now recs)) := by
  have hok : ∀ r ∈ recs, memoryOfRecord now r = .ok (memF now r) := by
    intro r hr
    obtain ⟨a, b, c⟩ := metaWf_parts r.metadata (hmeta r hr)
    exact memoryOfRecord_ok now r a b c
  induction rows with
  | nil => rfl
  | cons row rest ih =>
      have hrest := ih (fun x hx => hids x (by simp [hx]))
      cases hid : byIdLookup recs row.id with
      | some r =>
          simp only [reconcileRows, hid,
            hok r (byIdLookup_mem recs row.id r hid), hrest,
            List.filterMap_cons, resolveSpec, resolveRecord, Option.map]
      | none =>
          cases hdt : digitTest row.id with
          | false =>
              simp only [reconcileRows, hid, hdt, Bool.false_eq_true,
                if_false, hrest, List.filterMap_cons, resolveSpec,
                resolveRecord, Option.map]
          | true =>
              cases hpi : pyInt row.id with
              | none =>
                  have hg := hids row (by simp)
                  rw [goodId, hdt, hpi] at hg
                  simp at hg
              | some idx =>
                  cases hix : byIndexLookup recs idx with
                  | some r =>
                      simp only [reconcileRows, hid, hdt, if_true, hpi,
                        hix, hok r (byIndexLookup_mem recs idx r hix),
                        hrest, List.filterMap_cons, resolveSpec,
                        resolveRecord, Option.bind, Option.map]
                  | none =>
                      simp only [reconcileRows, hid, hdt, if_true, hpi,
                        hix, hrest, List.filterMap_cons, resolveSpec,
                        resolveRecord, Option.bind, Option.map]

/-- Claim C1 witness: a three-row response against a two-record
download: the first row resolves by id, the second by its ordinal 1, and
the third resolves to neither and is dropped, giving a partial list in
response order. -/
theorem c1_witness :
    (∀ row ∈ ([ { id := "aaa-1", score := some 3 }
              , { id := "1", score := some 2 }
              , { id := "zzz", score := some 1 } ] : List SRow),
        goodId row.id = true)
    ∧ reconcileRows "T" [cRecA, cRecB]
        [ { id := "aaa-1", score := some 3 }
        , { id := "1", score := some 2 }
        , { id := "zzz", score := some 1 } ]
      = .ok [ { memory := memF "T" cRecA, score := 3 }
            , { memory := memF "T" cRecB, score := 2 } ] := by
  refine ⟨by decide, ?_⟩
  rw [c1_reconciliation "T" [cRecA, cRecB] _ (by decide) (by decide)]
  decide

/-- Claim C10: because add_memory unpacks the caller metadata map after
the three canonical entries, a caller entry under a reserved key
overrides the canonical value in the uploaded record, and a subsequent
read reconstructs a Memory whose corresponding field equals the caller
value; the Memory object add_memory itself returns still carries the
canonical content, client id, and creation time. -/
theorem c10_reserved_override (content clientId nowIso readNow memId : String)
    (emb : List ℚ) (m : PyDict) (rrec : Rec)
    (hrrec : rrec = recOfIns (addMemoryUpload memId content clientId nowIso emb (some m)))
    (hnodup : (m.map Prod.fst).Nodup)
    (hwf : ∀ k ∈ reservedKeys, strOrAbsentB m k = true) :
    (∀ k v, k ∈ reservedKeys → dictGet m k = some v →
      dictGet rrec.metadata k = some v)
    ∧ memoryOfRecord readNow rrec = .ok (memF readNow rrec)
    ∧ (∀ s, dictGet m "content" = some (.vstr s)
        → (memF readNow rrec).content = s)
    ∧ (∀ s, dictGet m "client_id" = some (.vstr s)
        → (memF readNow rrec).client_id = s)
    ∧ (∀ s, dictGet m "created_at" = some (.vstr s)
        → (memF readNow rrec).created_at = s)
    ∧ (addMemoryReturn memId content clientId nowIso emb (some m)).content
        = content
    ∧ (addMemoryReturn memId content clientId nowIso emb (some m)).client_id
        = clientId
    ∧ (addMemoryReturn memId content clientId nowIso emb (some m)).created_at
        = nowIso := by
  have hmeta : rrec.metadata
      = dictMerge (canonicalMeta content clientId nowIso) m := by
    rw [hrrec]
    rfl
  have hmerge : ∀ k, dictGet rrec.metadata k
      = (dictGet m k).elim
          (dictGet (canonicalMeta content clientId nowIso) k) some := by
    intro k
    rw [hmeta]
    exact dictGet_dictMerge _ m k hnodup
  have hover : ∀ k v, k ∈ reservedKeys → dictGet m k = some v →
      dictGet rrec.metadata k = some v := by
    intro k v _ hv
    rw [hmerge k, hv]
    rfl
  have hwfm : ∀ k, k ∈ reservedKeys → strOrAbsentB rrec.metadata k = true := by
    intro k hk
    unfold strOrAbsentB
    rw [hmerge k]
    cases hv : dictGet m k with
    | none =>
        simp only [reservedKeys, List.mem_cons, List.not_mem_nil, or_false] at hk
        rcases hk with rfl | rfl | rfl
        · rfl
        · rfl
        · rfl
    | some v =>
        have := hwf k hk
        unfold strOrAbsentB at this
        rw [hv] at this
        cases v with
        | vstr s => rfl
        | vint n => simp at this
        | vbool b => simp at this
        | vnull => simp at this
  refine ⟨hover,
    memoryOfRecord_ok readNow rrec
      (hwfm "content" (by simp [reservedKeys]))
      (hwfm "created_at" (by simp [reservedKeys]))
      (hwfm "client_id" (by simp [reservedKeys])),
    ?_, ?_, ?_, rfl, rfl, rfl⟩
  · intro s h
    have hg := hover "content" (.vstr s) (by simp [reservedKeys]) h
    simp [memF, getStrD, hg]
  · intro s h
    have hg := hover "client_id" (.vstr s) (by simp [reservedKeys]) h
    simp [memF, getStrD, hg]
  · intro s h
    have hg := hover "created_at" (.vstr s) (by simp [reservedKeys]) h
    simp [memF, getStrD, hg]

/-- Claim C10 witness: with caller metadata overriding the reserved key
content, the uploaded record carries the caller value, the read
reconstructs a Memory with that content, and the Memory returned by
add_memory keeps the canonical content. -/
theorem c10_witness :
    (([("content", PyVal.vstr "OVR"), ("topic", PyVal.vstr "x")] : PyDict).map
        Prod.fst).Nodup
    ∧ dictGet (recOfIns (addMemoryUpload "id1" "orig" "c1" "T1" []
        (some [("content", PyVal.vstr "OVR"), ("topic", PyVal.vstr "x")]))).metadata
        "content" = some (PyVal.vstr "OVR")
    ∧ (memF "T2" (recOfIns (addMemoryUpload "id1" "orig" "c1" "T1" []
        (some [("content", PyVal.vstr "OVR"), ("topic", PyVal.vstr "x")])))).content
        = "OVR"
    ∧ (addMemoryReturn "id1" "orig" "c1" "T1" []
        (some [("content", PyVal.vstr "OVR"), ("topic", PyVal.vstr "x")])).content
        = "orig" := by
  have h := c10_reserved_override "orig" "c1" "T1" "T2" "id1" []
    [("content", PyVal.vstr "OVR"), ("topic", PyVal.vstr "x")] _ rfl
    (by decide) (by decide)
  exact ⟨by decide,
    h.1 "content" (PyVal.vstr "OVR") (by decide) (by decide),
    h.2.2.1 "OVR" (by decide),
    h.2.2.2.2.2.1⟩

end Longbow
